import Mathlib

set_option maxRecDepth 100000

/-!
Shallow embedding of the Patreon post tracker's storage / ingestion module
(`PostStorage` in `src/storage.ts`): the SQLite-backed tables
`patreon_posts` and `patreon_post_runs`, the two-phase bounded ingestion
run `syncInPostsFromPatreon`, and the paged read `getPosts`.

Modelling conventions:
* SQL tables are Lean lists of row structures, in rowid order
  (`insert or replace` deletes every conflicting row and appends the fresh
  row at the end, which is how SQLite assigns a new rowid on REPLACE).
* `started_at` ISO-8601 timestamps compare lexicographically in the same
  order as the instants they denote, so they are modelled as `Nat`.
* The network is a function `String → Option PatreonApiResponse`; `none`
  models a `fetch` rejection or an unparsable JSON body (both throw in the
  source, which has no try/catch inside the run).
* JavaScript truthiness of the cursor strings is modelled exactly:
  `undefined` is `none` and the empty string is falsy.
* The engine result carries the ordered list of fetched URLs per phase so
  that claims about the fetch call sequence can be stated.
-/

/-- One element of `PatreonApiResponse.data[*].attributes`. -/
structure PostAttributes where
  comment_count : Int
  like_count : Int
  title : String
  published_at : String
  content_teaser_text : String
  url : String
deriving DecidableEq

/-- One element of `PatreonApiResponse.data`. -/
structure PatreonPostData where
  id : String
  attributes : PostAttributes
deriving DecidableEq

/-- `meta.pagination` of the remote response (never read by the engine). -/
structure ApiPagination where
  total : Int
deriving DecidableEq

/-- `meta` of the remote response (never read by the engine). -/
structure ApiMeta where
  pagination : ApiPagination
deriving DecidableEq

/-- `links` of the remote response; `next` is the pagination cursor. -/
structure ApiLinks where
  next : Option String
deriving DecidableEq

/-- The parsed body of one remote feed page. -/
structure PatreonApiResponse where
  data : List PatreonPostData
  meta : ApiMeta
  links : ApiLinks
deriving DecidableEq

/-- One row of the `patreon_posts` table (`id text unique`). -/
structure PostRow where
  id : String
  title : String
  published_at : String
  comment_count : Int
  like_count : Int
  content_teaser_text : String
  url : String
deriving DecidableEq

/-- One row of the `patreon_post_runs` table.  `storeRunStart` inserts a row
with only `started_at`; the remaining columns stay SQL NULL (`none`) until
`storeRunEnd` updates them.  A NULL `last_next_link` written at run end is
indistinguishable from a never-written one, exactly as in SQLite. -/
structure RunRow where
  started_at : Nat
  duration_seconds : Option Nat
  posts_retrieved : Option Nat
  last_next_link : Option String
deriving DecidableEq

/-- The durable state owned by `PostStorage`: both tables, in rowid order. -/
structure StorageState where
  patreon_posts : List PostRow
  patreon_post_runs : List RunRow
deriving DecidableEq

/-- The row built from one fetched post by `upsertJsonPosts`. -/
def rowOfPost (p : PatreonPostData) : PostRow :=
  { id := p.id
    title := p.attributes.title
    published_at := p.attributes.published_at
    comment_count := p.attributes.comment_count
    like_count := p.attributes.like_count
    content_teaser_text := p.attributes.content_teaser_text
    url := p.attributes.url }

/-- `insert or replace into patreon_posts ... values (...)` keyed by the
unique `id` column: SQLite deletes every row that conflicts on `id` and
appends the new row with a fresh rowid. -/
def upsertPost (table : List PostRow) (r : PostRow) : List PostRow :=
  table.filter (fun x => x.id ≠ r.id) ++ [r]

/-- `upsertJsonPosts`: upsert every post of one fetched page, in order. -/
def upsertJsonPosts (table : List PostRow) (posts : PatreonApiResponse) : List PostRow :=
  posts.data.foldl (fun t p => upsertPost t (rowOfPost p)) table

/-- `select ... from patreon_post_runs order by started_at desc limit 1`:
the row with the greatest `started_at` (among ties, the one latest in rowid
order). -/
def getLastRun (rows : List RunRow) : Option RunRow :=
  rows.foldl
    (fun acc r =>
      match acc with
      | none => some r
      | some b => if b.started_at ≤ r.started_at then some r else some b)
    none

/-- `storeRunStart`: insert a new run row holding only `started_at`. -/
def storeRunStart (startTime : Nat) (st : StorageState) : StorageState :=
  { st with patreon_post_runs :=
      st.patreon_post_runs ++ [⟨startTime, none, none, none⟩] }

/-- `storeRunEnd`: `update patreon_post_runs set duration_seconds = ?,
posts_retrieved = ?, last_next_link = ? where started_at = ?`.  Returns the
new state together with `rowsWritten`; the source only logs an error when
`rowsWritten` is zero and never throws. -/
def storeRunEnd (startTime : Nat) (duration : Nat) (retrieved : Nat)
    (last_next_link : Option String) (st : StorageState) : StorageState × Nat :=
  let rowsWritten := st.patreon_post_runs.countP (fun r => r.started_at == startTime)
  let runs := st.patreon_post_runs.map (fun r =>
    if r.started_at == startTime then
      { r with duration_seconds := some duration
               posts_retrieved := some retrieved
               last_next_link := last_next_link }
    else r)
  (⟨st.patreon_posts, runs⟩, rowsWritten)

/-- JavaScript truthiness of `string | undefined | null`: `undefined`/`null`
and the empty string are falsy. -/
def truthy : Option String → Bool
  | none => false
  | some s => s ≠ ""

/-- The hard-coded first-page URL of the recency sweep (Phase A). -/
def recentPostsUrl : String :=
  "https://www.patreon.com/api/posts?fields[campaign]=name%2Curl%2Cpatron_count&fields[post]=url%2Ccontent_teaser_text%2Ccomment_count%2Ccommenter_count%2Ccontent%2Ccreated_at%2Clike_count%2Cpublished_at%2Cpatreon_url%2Cpost_type%2Ctitle%2Cview_count&fields[post_tag]=tag_type%2Cvalue&filter[campaign_id]=76490&sort=-published_at&json-api-use-default-includes=false&json-api-version=1.0"

/-- Result of one bounded fetch loop (`for (let i = 0; i < 20; ++i) ...`).
`nextUrl` is the value of the mutable `apiUrl` variable when the loop
exits (`none` models `undefined`); `trace` is the ordered list of URLs
passed to `fetch`; `faulted` records that a fetch/parse threw. -/
structure FetchLoopResult where
  posts : List PostRow
  retrieved : Nat
  nextUrl : Option String
  trace : List String
  faulted : Bool
deriving DecidableEq

/-- One phase's fetch loop.  Each iteration fetches `url`, upserts the
page, accumulates the item count, then follows `links.next`; it breaks when
`next` is falsy (absent or the empty string) and stops after `fuel`
fetches.  A failed fetch/parse ends the loop with `faulted := true` (the
source has no try/catch: the exception aborts the run). -/
def fetchLoop (feed : String → Option PatreonApiResponse) :
    Nat → String → List PostRow → Nat → List String → FetchLoopResult
  | 0, url, table, retrieved, trace =>
      ⟨table, retrieved, some url, trace, false⟩
  | fuel + 1, url, table, retrieved, trace =>
      match feed url with
      | none => ⟨table, retrieved, some url, trace ++ [url], true⟩
      | some posts =>
          let table := upsertJsonPosts table posts
          let retrieved := retrieved + posts.data.length
          let trace := trace ++ [url]
          match posts.links.next with
          | none => ⟨table, retrieved, none, trace, false⟩
          | some nxt =>
              if nxt = "" then ⟨table, retrieved, some "", trace, false⟩
              else fetchLoop feed fuel nxt table retrieved trace

/-- Phase A (recency sweep): up to 20 pages starting at `recentPostsUrl`. -/
def syncPhaseA (feed : String → Option PatreonApiResponse) (st : StorageState) :
    FetchLoopResult :=
  fetchLoop feed 20 recentPostsUrl st.patreon_posts 0 []

/-- The observable outcome of one `syncInPostsFromPatreon` run: the final
storage state, the fetch call sequences of the two phases, and whether the
run was aborted by an uncaught fetch/parse exception (in which case no
finalize — no `storeRunEnd` — happened). -/
structure SyncResult where
  state : StorageState
  traceA : List String
  traceB : List String
  faulted : Bool
deriving DecidableEq

/-- `syncInPostsFromPatreon`, one ingestion run started at `tStart` and
finishing at `tEnd` (the two clock readings; the stored duration is their
difference).  Faithful to the source order of effects:
1. read the previous run's row (before any write of this run),
2. insert this run's row,
3. Phase A from `recentPostsUrl`,
4. replace the cursor with the previous run's `last_next_link` when that is
   truthy,
5. if the cursor is falsy, finalize with a NULL cursor and return,
6. Phase B from the cursor, then finalize with the remaining cursor. -/
def syncInPostsFromPatreon (feed : String → Option PatreonApiResponse)
    (tStart tEnd : Nat) (st : StorageState) : SyncResult :=
  let lastRun := getLastRun st.patreon_post_runs
  let st1 := storeRunStart tStart st
  let a := syncPhaseA feed st1
  if a.faulted then
    ⟨⟨a.posts, st1.patreon_post_runs⟩, a.trace, [], true⟩
  else
    let apiUrl : Option String :=
      match lastRun with
      | some lr => if truthy lr.last_next_link then lr.last_next_link else a.nextUrl
      | none => a.nextUrl
    if truthy apiUrl then
      match apiUrl with
      | some u =>
          let b := fetchLoop feed 20 u a.posts a.retrieved []
          if b.faulted then
            ⟨⟨b.posts, st1.patreon_post_runs⟩, a.trace, b.trace, true⟩
          else
            ⟨(storeRunEnd tStart (tEnd - tStart) b.retrieved b.nextUrl
                ⟨b.posts, st1.patreon_post_runs⟩).1, a.trace, b.trace, false⟩
      | none =>
          ⟨(storeRunEnd tStart (tEnd - tStart) a.retrieved none
              ⟨a.posts, st1.patreon_post_runs⟩).1, a.trace, [], false⟩
    else
      ⟨(storeRunEnd tStart (tEnd - tStart) a.retrieved none
          ⟨a.posts, st1.patreon_post_runs⟩).1, a.trace, [], false⟩

/-- `getPostCount`: `SELECT COUNT(*) FROM patreon_posts`. -/
def getPostCount (st : StorageState) : Nat :=
  st.patreon_posts.length

-- ==================== the query layer (`getPosts`) ====================

/-- The projection returned by `getPosts`
(`SELECT title, published_at, comment_count, like_count, url`). -/
structure StoredPost where
  title : String
  published_at : String
  comment_count : Int
  like_count : Int
  url : String
deriving DecidableEq

def projectRow (r : PostRow) : StoredPost :=
  ⟨r.title, r.published_at, r.comment_count, r.like_count, r.url⟩

/-- `Object.values(SortableColumns)`. -/
def validSortColumns : List String := ["comment_count", "like_count", "published_at"]

/-- Helper for the `%` wildcard: try the rest of the pattern (already
partially applied as `f`) at every suffix of the text. -/
def likeScan (f : List Char → Bool) : List Char → Bool
  | [] => f []
  | d :: ts => f (d :: ts) || likeScan f ts

/-- SQLite `LIKE` pattern matching (ASCII-case-insensitive; `%` matches any
run of characters, `_` matches any single character). -/
def likeMatches : List Char → List Char → Bool
  | [], t => t.isEmpty
  | p :: ps, t =>
      if p = '%' then likeScan (likeMatches ps) t
      else
        match t with
        | [] => false
        | d :: ts =>
            if p = '_' then likeMatches ps ts
            else (p.toLower == d.toLower) && likeMatches ps ts

/-- The `WHERE title LIKE ("%" || ? || "%")` filter of `getPosts`. -/
def likeRow (query : String) (r : PostRow) : Bool :=
  likeMatches ('%' :: (query.data ++ ['%'])) r.title.data

/-- `ORDER BY <col>` key comparison: numeric for the two count columns,
BINARY text collation for `published_at`. -/
def rowCmp (col : String) (a b : PostRow) : Ordering :=
  if col = "comment_count" then compare a.comment_count b.comment_count
  else if col = "like_count" then compare a.like_count b.like_count
  else compare a.published_at b.published_at

/-- The row order realized by `ORDER BY <col> <dir>`. -/
def rowLE (col dir : String) (a b : PostRow) : Prop :=
  if dir = "asc" then rowCmp col a b ≠ Ordering.gt
  else rowCmp col a b ≠ Ordering.lt

instance (col dir : String) : DecidableRel (rowLE col dir) := by
  intro a b
  unfold rowLE
  split <;> infer_instance

/-- One admissible realization of `ORDER BY <col> <dir>` over the filtered
rows (a stable insertion sort), used by the deterministic model `getPosts`.
The source query has no secondary sort key, so SQLite promises only the
per-execution contract `isOrderByResult` below; separate executions need
not agree on the order of tied keys. -/
def sqlOrderedRows (col dir query : String) (table : List PostRow) : List PostRow :=
  (table.filter (likeRow query)).insertionSort (rowLE col dir)

/-- SQLite `LIMIT ? OFFSET ?`: a negative OFFSET reads as zero and a
negative LIMIT means no upper bound. -/
def sqlLimitOffset (rows : List PostRow) (limit offset : Int) : List PostRow :=
  let dropped := rows.drop offset.toNat
  if limit < 0 then dropped else dropped.take limit.toNat

/-- `getPosts(page, sortBy, sortDirection, query, perPage)`: validates only
the sort parameters (returning an empty array on failure), computes
`offset = (page - 1) * perPage`, and runs the paged `SELECT`. -/
def getPosts (table : List PostRow) (page : Int) (sortBy : String)
    (sortDirection : String) (query : String) (perPage : Int) : List StoredPost :=
  if ¬ (sortBy ∈ validSortColumns ∧ sortDirection ∈ (["asc", "desc"] : List String)) then
    []
  else
    let offset := (page - 1) * perPage
    let limit := perPage
    (sqlLimitOffset (sqlOrderedRows sortBy sortDirection query table) limit offset).map
      projectRow

/-- The contract SQLite gives for one execution of
`SELECT … WHERE title LIKE ("%" || ? || "%") ORDER BY <col> <dir>` (before
LIMIT/OFFSET): the produced row sequence is *some* permutation of the
filtered rows that is sorted by the key.  The order among tied keys is
unspecified — the source query has no secondary sort key — and may differ
between the separate executions that serve successive pages. -/
def isOrderByResult (col dir query : String) (table ord : List PostRow) : Prop :=
  ord.Perm (table.filter (likeRow query)) ∧ ord.Pairwise (rowLE col dir)

instance (col dir query : String) (table ord : List PostRow) :
    Decidable (isOrderByResult col dir query table ord) := by
  unfold isOrderByResult
  infer_instance

/-- One execution of the paged read with the engine's chosen ORDER BY
outcome `ord` abstracted as an input: the validation guard and the
LIMIT/OFFSET arithmetic are exactly the code's; which admissible `ord` the
engine produced is existentially constrained by `isOrderByResult` only. -/
def getPostsExec (ord : List PostRow) (page : Int) (sortBy : String)
    (sortDirection : String) (perPage : Int) : List StoredPost :=
  if ¬ (sortBy ∈ validSortColumns ∧ sortDirection ∈ (["asc", "desc"] : List String)) then
    []
  else
    (sqlLimitOffset ord perPage ((page - 1) * perPage)).map projectRow

-- ==================== simulated linear feed ====================

/-- The ids present in the posts table, in rowid order. -/
def tableIds (table : List PostRow) : List String :=
  table.map (fun r => r.id)

/-- Cursor naming scheme of the simulated feed: page `k` (for `1 ≤ k`) is
reached through the URL made of `k` copies of `p`. -/
def pageUrl (k : Nat) : String :=
  String.mk (List.replicate k 'p')

/-- The id of the single post living on page `k` of the simulated feed. -/
def postId (k : Nat) : String :=
  String.mk (List.replicate (k + 1) 'i')

/-- Decode a simulated-feed cursor back to its page number. -/
def decodeCursor (s : String) : Option Nat :=
  if !s.data.isEmpty && s.data.all (fun c => c = 'p') then some s.data.length
  else none

/-- Page `k` of an `n`-page simulated feed: one post, and a `next` link
exactly when a page `k + 1` exists. -/
def linPage (n k : Nat) : PatreonApiResponse :=
  { data := [⟨postId k, ⟨0, 0, "", "", "", ""⟩⟩]
    meta := ⟨⟨(n : Int)⟩⟩
    links := ⟨if k + 1 < n then some (pageUrl (k + 1)) else none⟩ }

/-- A simulated feed of `n` pages, with no items added or removed between
runs: `recentPostsUrl` serves page 0, cursor `pageUrl k` serves page `k`,
and every other URL is unknown. -/
def linFeed (n : Nat) (s : String) : Option PatreonApiResponse :=
  if s = recentPostsUrl then
    if 0 < n then some (linPage n 0) else none
  else
    match decodeCursor s with
    | some k => if k < n then some (linPage n k) else none
    | none => none

/-- The storage state after `m` runs of the engine over the `n`-page
simulated feed, starting from a fresh store, run `j` being started (and
finished) at time `j`. -/
def linRuns (n : Nat) : Nat → StorageState
  | 0 => ⟨[], []⟩
  | m + 1 => (syncInPostsFromPatreon (linFeed n) (m + 1) (m + 1) (linRuns n m)).state

-- ==================== basic lemmas about the loops and the tables ====================

theorem fetchLoop_zero (feed : String → Option PatreonApiResponse) (url : String)
    (table : List PostRow) (ret : Nat) (tr : List String) :
    fetchLoop feed 0 url table ret tr = ⟨table, ret, some url, tr, false⟩ := rfl

theorem fetchLoop_fault {feed : String → Option PatreonApiResponse} {url : String}
    (fuel : Nat) (table : List PostRow) (ret : Nat) (tr : List String)
    (h : feed url = none) :
    fetchLoop feed (fuel + 1) url table ret tr =
      ⟨table, ret, some url, tr ++ [url], true⟩ := by
  simp [fetchLoop, h]

theorem fetchLoop_last {feed : String → Option PatreonApiResponse} {url : String}
    {posts : PatreonApiResponse} (fuel : Nat) (table : List PostRow) (ret : Nat)
    (tr : List String) (h : feed url = some posts) (hn : posts.links.next = none) :
    fetchLoop feed (fuel + 1) url table ret tr =
      ⟨upsertJsonPosts table posts, ret + posts.data.length, none, tr ++ [url], false⟩ := by
  simp [fetchLoop, h, hn]

theorem fetchLoop_empty_next {feed : String → Option PatreonApiResponse} {url : String}
    {posts : PatreonApiResponse} (fuel : Nat) (table : List PostRow) (ret : Nat)
    (tr : List String) (h : feed url = some posts) (hn : posts.links.next = some "") :
    fetchLoop feed (fuel + 1) url table ret tr =
      ⟨upsertJsonPosts table posts, ret + posts.data.length, some "", tr ++ [url], false⟩ := by
  simp [fetchLoop, h, hn]

theorem fetchLoop_step {feed : String → Option PatreonApiResponse} {url nxt : String}
    {posts : PatreonApiResponse} (fuel : Nat) (table : List PostRow) (ret : Nat)
    (tr : List String) (h : feed url = some posts) (hn : posts.links.next = some nxt)
    (hne : nxt ≠ "") :
    fetchLoop feed (fuel + 1) url table ret tr =
      fetchLoop feed fuel nxt (upsertJsonPosts table posts) (ret + posts.data.length)
        (tr ++ [url]) := by
  simp [fetchLoop, h, hn, hne]

/-- The trace accumulator of `fetchLoop` is a pure prefix: every component
of the result is independent of it. -/
theorem fetchLoop_trace_shift (feed : String → Option PatreonApiResponse) :
    ∀ (fuel : Nat) (url : String) (table : List PostRow) (ret : Nat) (tr : List String),
      fetchLoop feed fuel url table ret tr =
        { fetchLoop feed fuel url table ret [] with
          trace := tr ++ (fetchLoop feed fuel url table ret []).trace }
  | 0, url, table, ret, tr => by simp [fetchLoop_zero]
  | fuel + 1, url, table, ret, tr => by
      cases h : feed url with
      | none => simp [fetchLoop_fault fuel _ _ _ h]
      | some posts =>
        cases hn : posts.links.next with
        | none => simp [fetchLoop_last fuel _ _ _ h hn]
        | some nxt =>
          by_cases he : nxt = ""
          · subst he
            simp [fetchLoop_empty_next fuel _ _ _ h hn]
          · rw [fetchLoop_step fuel _ _ _ h hn he, fetchLoop_step fuel _ _ _ h hn he,
              fetchLoop_trace_shift feed fuel nxt _ _ (tr ++ [url]),
              fetchLoop_trace_shift feed fuel nxt _ _ ([] ++ [url])]
            simp

/-- Each fetch loop issues at most `fuel` fetches, and when it stops short
of the budget it is because the feed ended (falsy `next`) or a fetch
faulted. -/
theorem fetchLoop_budget (feed : String → Option PatreonApiResponse) :
    ∀ (fuel : Nat) (url : String) (table : List PostRow) (ret : Nat) (tr : List String),
      (fetchLoop feed fuel url table ret tr).trace.length ≤ tr.length + fuel ∧
      ((fetchLoop feed fuel url table ret tr).trace.length = tr.length + fuel ∨
        (fetchLoop feed fuel url table ret tr).nextUrl = none ∨
        (fetchLoop feed fuel url table ret tr).nextUrl = some "" ∨
        (fetchLoop feed fuel url table ret tr).faulted = true)
  | 0, url, table, ret, tr => by simp [fetchLoop_zero]
  | fuel + 1, url, table, ret, tr => by
      cases h : feed url with
      | none => simp [fetchLoop_fault fuel _ _ _ h]
      | some posts =>
        cases hn : posts.links.next with
        | none => simp [fetchLoop_last fuel _ _ _ h hn]
        | some nxt =>
          by_cases he : nxt = ""
          · subst he
            simp [fetchLoop_empty_next fuel _ _ _ h hn]
          · rw [fetchLoop_step fuel _ _ _ h hn he]
            have ih := fetchLoop_budget feed fuel nxt (upsertJsonPosts table posts)
              (ret + posts.data.length) (tr ++ [url])
            rcases ih with ⟨ih1, ih2⟩
            constructor
            · simpa [Nat.add_assoc, Nat.add_comm 1 fuel] using ih1
            · rcases ih2 with h2 | h2 | h2 | h2
              · left; simpa [Nat.add_assoc, Nat.add_comm 1 fuel] using h2
              · right; left; exact h2
              · right; right; left; exact h2
              · right; right; right; exact h2

/-- An upsert keeps every id that was already in the table. -/
theorem mem_tableIds_upsertPost {s : String} (t : List PostRow) (r : PostRow)
    (h : s ∈ tableIds t) : s ∈ tableIds (upsertPost t r) := by
  rcases List.mem_map.mp h with ⟨x, hx, rfl⟩
  by_cases hid : x.id = r.id
  · simp [tableIds, upsertPost, hid]
  · refine List.mem_map.mpr ?_
    exact ⟨x, by simp [upsertPost, List.mem_filter, hx, hid], rfl⟩

/-- An upsert puts the record's id into the table. -/
theorem self_mem_tableIds_upsertPost (t : List PostRow) (r : PostRow) :
    r.id ∈ tableIds (upsertPost t r) := by
  simp [tableIds, upsertPost]

/-- Upserting a whole page keeps every id that was already in the table. -/
theorem mem_tableIds_upsertJsonPosts {s : String} (posts : PatreonApiResponse) :
    ∀ (t : List PostRow), s ∈ tableIds t → s ∈ tableIds (upsertJsonPosts t posts) := by
  show ∀ t, s ∈ tableIds t →
    s ∈ tableIds (posts.data.foldl (fun t p => upsertPost t (rowOfPost p)) t)
  induction posts.data with
  | nil => intro t h; exact h
  | cons p ps ih =>
      intro t h
      exact ih _ (mem_tableIds_upsertPost t (rowOfPost p) h)

/-- A fetch loop only ever upserts: every id present before is present after. -/
theorem fetchLoop_preserves_ids (feed : String → Option PatreonApiResponse) :
    ∀ (fuel : Nat) (url : String) (table : List PostRow) (ret : Nat) (tr : List String)
      (s : String), s ∈ tableIds table →
      s ∈ tableIds (fetchLoop feed fuel url table ret tr).posts
  | 0, url, table, ret, tr, s => by simp [fetchLoop_zero]
  | fuel + 1, url, table, ret, tr, s => by
      intro h
      cases hf : feed url with
      | none => rw [fetchLoop_fault fuel _ _ _ hf]; exact h
      | some posts =>
        have h' := mem_tableIds_upsertJsonPosts posts table h
        cases hn : posts.links.next with
        | none => rw [fetchLoop_last fuel _ _ _ hf hn]; exact h'
        | some nxt =>
          by_cases he : nxt = ""
          · subst he
            rw [fetchLoop_empty_next fuel _ _ _ hf hn]; exact h'
          · rw [fetchLoop_step fuel _ _ _ hf hn he]
            exact fetchLoop_preserves_ids feed fuel nxt _ _ _ s h'

/-- `getLastRun` returns a row of the table. -/
theorem getLastRun_mem {rows : List RunRow} {r : RunRow} (h : getLastRun rows = some r) :
    r ∈ rows := by
  suffices H : ∀ (l : List RunRow) (acc : Option RunRow),
      l.foldl (fun acc r =>
        match acc with
        | none => some r
        | some b => if b.started_at ≤ r.started_at then some r else some b) acc = some r →
      acc = some r ∨ r ∈ l by
    rcases H rows none h with h' | h'
    · cases h'
    · exact h'
  intro l
  induction l with
  | nil => intro acc h; exact Or.inl h
  | cons x xs ih =>
      intro acc h
      rcases ih _ h with h' | h'
      · cases acc with
        | none =>
            simp only at h'
            exact Or.inr (by simp [← Option.some_inj.mp h'])
        | some b =>
            simp only at h'
            by_cases hle : b.started_at ≤ x.started_at
            · rw [if_pos hle] at h'
              exact Or.inr (by simp [← Option.some_inj.mp h'])
            · rw [if_neg hle] at h'
              exact Or.inl h'
      · exact Or.inr (List.mem_cons_of_mem x h')

/-- Appending a row whose `started_at` dominates the table makes it the
result of `order by started_at desc limit 1`. -/
theorem getLastRun_append_max (rows : List RunRow) (r : RunRow)
    (h : ∀ x ∈ rows, x.started_at ≤ r.started_at) :
    getLastRun (rows ++ [r]) = some r := by
  unfold getLastRun
  rw [List.foldl_append]
  cases hl : getLastRun rows with
  | none => simp [getLastRun] at hl; simp [hl]
  | some b =>
      have hb : b ∈ rows := getLastRun_mem hl
      have := h b hb
      simp only [getLastRun] at hl
      simp [hl, this]

/-- `storeRunEnd` never touches the posts table. -/
theorem storeRunEnd_posts (t d ret : Nat) (c : Option String) (st : StorageState) :
    (storeRunEnd t d ret c st).1.patreon_posts = st.patreon_posts := rfl

/-- A finalize whose `update` matches no row (zero rows written) leaves the
whole state untouched. -/
theorem storeRunEnd_noMatch (t d ret : Nat) (c : Option String) (st : StorageState)
    (h : ∀ x ∈ st.patreon_post_runs, x.started_at ≠ t) :
    storeRunEnd t d ret c st = (st, 0) := by
  unfold storeRunEnd
  have hcount : st.patreon_post_runs.countP (fun r => r.started_at == t) = 0 := by
    rw [List.countP_eq_zero]
    intro x hx
    simpa using h x hx
  have hmap : st.patreon_post_runs.map (fun r =>
      if r.started_at == t then
        { r with duration_seconds := some d
                 posts_retrieved := some ret
                 last_next_link := c }
      else r) = st.patreon_post_runs := by
    have : ∀ x ∈ st.patreon_post_runs, (if x.started_at == t then
        { x with duration_seconds := some d
                 posts_retrieved := some ret
                 last_next_link := c }
      else x) = id x := by
      intro x hx
      simp [h x hx]
    rw [List.map_congr_left this, List.map_id]
  simp only [hcount, hmap]

/-- Finalizing a run table of the shape `old ++ [fresh row]` (all old rows
strictly older) updates exactly the fresh row. -/
theorem storeRunEnd_append_fresh (t d ret : Nat) (c : Option String)
    (posts : List PostRow) (old : List RunRow)
    (h : ∀ x ∈ old, x.started_at < t) :
    (storeRunEnd t d ret c ⟨posts, old ++ [⟨t, none, none, none⟩]⟩).1 =
      ⟨posts, old ++ [⟨t, some d, some ret, c⟩]⟩ := by
  unfold storeRunEnd
  simp only [List.map_append]
  have hmap : old.map (fun r =>
      if r.started_at == t then
        { r with duration_seconds := some d
                 posts_retrieved := some ret
                 last_next_link := c }
      else r) = old := by
    have : ∀ x ∈ old, (if x.started_at == t then
        { x with duration_seconds := some d
                 posts_retrieved := some ret
                 last_next_link := c }
      else x) = id x := by
      intro x hx
      have hne : x.started_at ≠ t := Nat.ne_of_lt (h x hx)
      simp [hne]
    rw [List.map_congr_left this, List.map_id]
  rw [hmap]
  simp

-- ==================== run-shape lemmas for the engine ====================

/-- Inserting the run-start row does not change the posts table Phase A reads. -/
theorem syncPhaseA_runStart (feed : String → Option PatreonApiResponse) (t : Nat)
    (st : StorageState) : syncPhaseA feed (storeRunStart t st) = syncPhaseA feed st := rfl

/-- The cursor Phase B would start from: the previous run's `last_next_link`
when truthy, otherwise whatever cursor Phase A ended on.  The previous run's
row is the one read *before* the run-start insert. -/
def resumeUrl (feed : String → Option PatreonApiResponse) (st : StorageState) :
    Option String :=
  match getLastRun st.patreon_post_runs with
  | some lr => if truthy lr.last_next_link then lr.last_next_link else (syncPhaseA feed st).nextUrl
  | none => (syncPhaseA feed st).nextUrl

/-- A run whose Phase A faults: the partially fetched pages stay upserted,
the run-start row stays unfinalized, Phase B never fetches. -/
theorem sync_phaseA_fault (feed : String → Option PatreonApiResponse) (t t' : Nat)
    (st : StorageState) (ha : (syncPhaseA feed st).faulted = true) :
    syncInPostsFromPatreon feed t t' st =
      ⟨⟨(syncPhaseA feed st).posts, st.patreon_post_runs ++ [⟨t, none, none, none⟩]⟩,
        (syncPhaseA feed st).trace, [], true⟩ := by
  simp only [syncInPostsFromPatreon, syncPhaseA_runStart]
  rw [if_pos ha]
  simp [storeRunStart]

/-- A run whose Phase A succeeds and whose resume cursor is falsy (absent
previous cursor and no truthy Phase-A continuation): finalize immediately
with a NULL cursor; Phase B never fetches. -/
theorem sync_run_falsy (feed : String → Option PatreonApiResponse) (t t' : Nat)
    (st : StorageState) (hfresh : ∀ x ∈ st.patreon_post_runs, x.started_at < t)
    (ha : (syncPhaseA feed st).faulted = false)
    (hr : truthy (resumeUrl feed st) = false) :
    syncInPostsFromPatreon feed t t' st =
      ⟨⟨(syncPhaseA feed st).posts,
          st.patreon_post_runs ++
            [⟨t, some (t' - t), some (syncPhaseA feed st).retrieved, none⟩]⟩,
        (syncPhaseA feed st).trace, [], false⟩ := by
  have hres : (match getLastRun st.patreon_post_runs with
      | some lr => if truthy lr.last_next_link then lr.last_next_link
                   else (syncPhaseA feed st).nextUrl
      | none => (syncPhaseA feed st).nextUrl) = resumeUrl feed st := rfl
  simp only [syncInPostsFromPatreon, syncPhaseA_runStart]
  rw [if_neg (by simp [ha]), hres, if_neg (by simp [hr])]
  have hruns : (storeRunStart t st).patreon_post_runs =
      st.patreon_post_runs ++ [⟨t, none, none, none⟩] := rfl
  rw [hruns]
  have := storeRunEnd_append_fresh t (t' - t) (syncPhaseA feed st).retrieved none
    (syncPhaseA feed st).posts st.patreon_post_runs hfresh
  rw [this]

/-- A run whose Phase A succeeds and whose resume cursor is a truthy URL
`u`, with Phase B from `u` not faulting: Phase B runs from `u` and the run
finalizes with Phase B's remaining cursor. -/
theorem sync_run_resume (feed : String → Option PatreonApiResponse) (t t' : Nat)
    (st : StorageState) (u : String)
    (hfresh : ∀ x ∈ st.patreon_post_runs, x.started_at < t)
    (ha : (syncPhaseA feed st).faulted = false)
    (hu : resumeUrl feed st = some u) (hne : u ≠ "")
    (hb : (fetchLoop feed 20 u (syncPhaseA feed st).posts
        (syncPhaseA feed st).retrieved []).faulted = false) :
    syncInPostsFromPatreon feed t t' st =
      ⟨⟨(fetchLoop feed 20 u (syncPhaseA feed st).posts
            (syncPhaseA feed st).retrieved []).posts,
          st.patreon_post_runs ++
            [⟨t, some (t' - t),
              some (fetchLoop feed 20 u (syncPhaseA feed st).posts
                  (syncPhaseA feed st).retrieved []).retrieved,
              (fetchLoop feed 20 u (syncPhaseA feed st).posts
                  (syncPhaseA feed st).retrieved []).nextUrl⟩]⟩,
        (syncPhaseA feed st).trace,
        (fetchLoop feed 20 u (syncPhaseA feed st).posts
            (syncPhaseA feed st).retrieved []).trace,
        false⟩ := by
  have hres : (match getLastRun st.patreon_post_runs with
      | some lr => if truthy lr.last_next_link then lr.last_next_link
                   else (syncPhaseA feed st).nextUrl
      | none => (syncPhaseA feed st).nextUrl) = resumeUrl feed st := rfl
  simp only [syncInPostsFromPatreon, syncPhaseA_runStart]
  rw [if_neg (by simp [ha]), hres, hu]
  rw [if_pos (by simp [truthy, hne])]
  have hruns : (storeRunStart t st).patreon_post_runs =
      st.patreon_post_runs ++ [⟨t, none, none, none⟩] := rfl
  have hend := storeRunEnd_append_fresh t (t' - t)
    (fetchLoop feed 20 u (syncPhaseA feed st).posts
        (syncPhaseA feed st).retrieved []).retrieved
    (fetchLoop feed 20 u (syncPhaseA feed st).posts
        (syncPhaseA feed st).retrieved []).nextUrl
    (fetchLoop feed 20 u (syncPhaseA feed st).posts
        (syncPhaseA feed st).retrieved []).posts st.patreon_post_runs hfresh
  simp only [hb, hruns, hend, Bool.false_eq_true, if_false]

/-- A run whose Phase B faults: Phase B's partial upserts stay, the
run-start row stays unfinalized. -/
theorem sync_phaseB_fault (feed : String → Option PatreonApiResponse) (t t' : Nat)
    (st : StorageState) (u : String)
    (ha : (syncPhaseA feed st).faulted = false)
    (hu : resumeUrl feed st = some u) (hne : u ≠ "")
    (hb : (fetchLoop feed 20 u (syncPhaseA feed st).posts
        (syncPhaseA feed st).retrieved []).faulted = true) :
    syncInPostsFromPatreon feed t t' st =
      ⟨⟨(fetchLoop feed 20 u (syncPhaseA feed st).posts
            (syncPhaseA feed st).retrieved []).posts,
          st.patreon_post_runs ++ [⟨t, none, none, none⟩]⟩,
        (syncPhaseA feed st).trace,
        (fetchLoop feed 20 u (syncPhaseA feed st).posts
            (syncPhaseA feed st).retrieved []).trace,
        true⟩ := by
  have hres : (match getLastRun st.patreon_post_runs with
      | some lr => if truthy lr.last_next_link then lr.last_next_link
                   else (syncPhaseA feed st).nextUrl
      | none => (syncPhaseA feed st).nextUrl) = resumeUrl feed st := rfl
  simp only [syncInPostsFromPatreon, syncPhaseA_runStart]
  rw [if_neg (by simp [ha]), hres, hu]
  rw [if_pos (by simp [truthy, hne])]
  simp only [hb, if_true]
  simp [storeRunStart]

-- ==================== C5: fetch budget ====================

/-- Phase A's fetch sequence is the same in every outcome of a run. -/
theorem sync_traceA (feed : String → Option PatreonApiResponse) (t t' : Nat)
    (st : StorageState) :
    (syncInPostsFromPatreon feed t t' st).traceA = (syncPhaseA feed st).trace := by
  simp only [syncInPostsFromPatreon, syncPhaseA_runStart]
  split
  · rfl
  · split
    · split
      · split <;> rfl
      · rfl
    · rfl

/-- Phase B's fetch sequence is empty or is one 20-budget fetch loop. -/
theorem sync_traceB_cases (feed : String → Option PatreonApiResponse) (t t' : Nat)
    (st : StorageState) :
    (syncInPostsFromPatreon feed t t' st).traceB = [] ∨
      ∃ u, (syncInPostsFromPatreon feed t t' st).traceB =
        (fetchLoop feed 20 u (syncPhaseA feed st).posts
          (syncPhaseA feed st).retrieved []).trace := by
  simp only [syncInPostsFromPatreon, syncPhaseA_runStart]
  split
  · exact Or.inl rfl
  · split
    · split
      · split
        · exact Or.inr ⟨_, rfl⟩
        · exact Or.inr ⟨_, rfl⟩
      · exact Or.inl rfl
    · exact Or.inl rfl

/-- C5: every run issues at most 20 fetches in Phase A and at most 20 in
Phase B (hence at most 40 in total), and each fetch loop (a total function,
hence terminating) stops either with its budget exhausted, or at a page
with a falsy `next` link, or at a faulted fetch. -/
theorem c5_fetch_budget (feed : String → Option PatreonApiResponse) (t t' : Nat)
    (st : StorageState) :
    (syncInPostsFromPatreon feed t t' st).traceA.length ≤ 20 ∧
    (syncInPostsFromPatreon feed t t' st).traceB.length ≤ 20 ∧
    (syncInPostsFromPatreon feed t t' st).traceA.length +
      (syncInPostsFromPatreon feed t t' st).traceB.length ≤ 40 ∧
    ∀ (fuel : Nat) (url : String) (table : List PostRow) (ret : Nat),
      (fetchLoop feed fuel url table ret []).trace.length ≤ fuel ∧
      ((fetchLoop feed fuel url table ret []).trace.length = fuel ∨
        (fetchLoop feed fuel url table ret []).nextUrl = none ∨
        (fetchLoop feed fuel url table ret []).nextUrl = some "" ∨
        (fetchLoop feed fuel url table ret []).faulted = true) := by
  have hbudget : ∀ (fuel : Nat) (url : String) (table : List PostRow) (ret : Nat),
      (fetchLoop feed fuel url table ret []).trace.length ≤ fuel ∧
      ((fetchLoop feed fuel url table ret []).trace.length = fuel ∨
        (fetchLoop feed fuel url table ret []).nextUrl = none ∨
        (fetchLoop feed fuel url table ret []).nextUrl = some "" ∨
        (fetchLoop feed fuel url table ret []).faulted = true) := by
    intro fuel url table ret
    simpa using fetchLoop_budget feed fuel url table ret []
  have hA : (syncInPostsFromPatreon feed t t' st).traceA.length ≤ 20 := by
    rw [sync_traceA]
    exact (hbudget 20 recentPostsUrl st.patreon_posts 0).1
  have hB : (syncInPostsFromPatreon feed t t' st).traceB.length ≤ 20 := by
    rcases sync_traceB_cases feed t t' st with h | ⟨u, h⟩
    · simp [h]
    · rw [h]
      exact (hbudget 20 u _ _).1
  exact ⟨hA, hB, by omega, hbudget⟩

-- ==================== C6: invalid sort parameters degrade to [] ====================

/-- C6: an unrecognized sort column or direction makes `getPosts` return
the empty sequence (the read is a pure function of the state, so no stored
state changes and no error is raised). -/
theorem c6_invalid_sort_empty (table : List PostRow) (page : Int)
    (sortBy sortDirection query : String) (perPage : Int)
    (h : sortBy ∉ validSortColumns ∨ sortDirection ∉ (["asc", "desc"] : List String)) :
    getPosts table page sortBy sortDirection query perPage = [] := by
  unfold getPosts
  rw [if_pos]
  rintro ⟨h1, h2⟩
  rcases h with h | h
  · exact h h1
  · exact h h2

/-- Witness for C6 at the spec's own example input. -/
theorem c6_invalid_sort_empty_witness :
    ("not_a_column" ∉ validSortColumns ∨ "desc" ∉ (["asc", "desc"] : List String)) ∧
      getPosts [] 1 "not_a_column" "desc" "" 10 = [] :=
  ⟨Or.inl (by decide),
    c6_invalid_sort_empty [] 1 "not_a_column" "desc" "" 10 (Or.inl (by decide))⟩

-- ==================== C9: run-end fault isolation ====================

/-- C9: if the finalizing `update` writes zero rows, the state is left
completely unchanged (so in particular every post row upserted during the
run's phases is still present), and the operation merely reports the count
instead of raising. -/
theorem c9_runend_fault_isolation (st : StorageState) (t d ret : Nat)
    (c : Option String) :
    ((storeRunEnd t d ret c st).2 = 0 → (storeRunEnd t d ret c st).1 = st) ∧
    ∀ p ∈ st.patreon_posts, p ∈ (storeRunEnd t d ret c st).1.patreon_posts := by
  constructor
  · intro hz
    have hz' : st.patreon_post_runs.countP (fun r => r.started_at == t) = 0 := hz
    have hall : ∀ x ∈ st.patreon_post_runs, x.started_at ≠ t := by
      intro x hx
      have := List.countP_eq_zero.mp hz' x hx
      simpa using this
    rw [storeRunEnd_noMatch t d ret c st hall]
  · intro p hp
    rw [storeRunEnd_posts]
    exact hp

/-- Witness for C9: a finalize keyed on a `started_at` that matches no run
row writes zero rows and leaves the state (an example state with one stored
post and one unrelated run row) unchanged. -/
theorem c9_runend_fault_isolation_witness :
    (storeRunEnd 7 1 2 none ⟨[⟨"a", "t", "d", 1, 2, "tt", "u"⟩], [⟨3, none, none, none⟩]⟩).2 = 0 ∧
    (storeRunEnd 7 1 2 none ⟨[⟨"a", "t", "d", 1, 2, "tt", "u"⟩], [⟨3, none, none, none⟩]⟩).1 =
      ⟨[⟨"a", "t", "d", 1, 2, "tt", "u"⟩], [⟨3, none, none, none⟩]⟩ :=
  ⟨by decide,
    (c9_runend_fault_isolation ⟨[⟨"a", "t", "d", 1, 2, "tt", "u"⟩], [⟨3, none, none, none⟩]⟩
      7 1 2 none).1 (by decide)⟩

-- ==================== C10: page and perPage are never validated ====================

/-- C10: with valid sort parameters the guard never fires, whatever `page`
and `perPage` are: the call always computes `offset = (page - 1) * perPage`
(negative when `page < 1`), hands it to the SQL layer (where a negative
OFFSET reads as zero), and returns a plain possibly-empty list; in
particular any `page ≤ 0` behaves exactly like `page = 1` when
`perPage > 0`. -/
theorem c10_page_unvalidated (table : List PostRow) (page : Int)
    (sortBy sortDirection query : String) (perPage : Int)
    (h1 : sortBy ∈ validSortColumns)
    (h2 : sortDirection ∈ (["asc", "desc"] : List String)) :
    getPosts table page sortBy sortDirection query perPage =
      (sqlLimitOffset (sqlOrderedRows sortBy sortDirection query table) perPage
        ((page - 1) * perPage)).map projectRow ∧
    (0 < perPage → page ≤ 0 →
      getPosts table page sortBy sortDirection query perPage =
        getPosts table 1 sortBy sortDirection query perPage) := by
  have hguard : ∀ (p : Int), getPosts table p sortBy sortDirection query perPage =
      (sqlLimitOffset (sqlOrderedRows sortBy sortDirection query table) perPage
        ((p - 1) * perPage)).map projectRow := by
    intro p
    unfold getPosts
    rw [if_neg (not_not_intro ⟨h1, h2⟩)]
  refine ⟨hguard page, fun hpp hpage => ?_⟩
  rw [hguard page, hguard 1]
  have hneg : (page - 1) * perPage ≤ 0 :=
    mul_nonpos_iff.mpr (Or.inr ⟨by omega, by omega⟩)
  simp [sqlLimitOffset, Int.toNat_of_nonpos hneg]

/-- Witness for C10 at `page = -3`, `perPage = 10`. -/
theorem c10_page_unvalidated_witness :
    ("comment_count" ∈ validSortColumns) ∧
    (getPosts [] (-3) "comment_count" "asc" "" 10 =
      (sqlLimitOffset (sqlOrderedRows "comment_count" "asc" "" []) 10
        ((-3 - 1) * 10)).map projectRow ∧
    (0 < (10 : Int) → (-3 : Int) ≤ 0 →
      getPosts [] (-3) "comment_count" "asc" "" 10 =
        getPosts [] 1 "comment_count" "asc" "" 10)) :=
  ⟨by decide, c10_page_unvalidated [] (-3) "comment_count" "asc" "" 10 (by decide) (by decide)⟩

-- ==================== C4: upsert idempotence, one row per id, last write wins ====================

/-- Row count by id after one upsert: the upserted id has exactly one row,
every other id keeps its count. -/
theorem countP_upsertPost (t : List PostRow) (r : PostRow) (i : String) :
    (upsertPost t r).countP (fun x => x.id == i) =
      if r.id == i then 1 else t.countP (fun x => x.id == i) := by
  unfold upsertPost
  rw [List.countP_append]
  by_cases hri : r.id = i
  · have hfilter : (t.filter (fun x => x.id ≠ r.id)).countP (fun x => x.id == i) = 0 := by
      rw [List.countP_eq_zero]
      intro x hx
      have := (List.mem_filter.mp hx).2
      simp only [ne_eq, decide_not, Bool.not_eq_true', decide_eq_false_iff_not] at this
      simp [hri ▸ this]
    simp [hfilter, hri]
  · have hfun : (fun x : PostRow => (x.id == i) && decide (x.id ≠ r.id)) =
        (fun x : PostRow => x.id == i) := by
      funext x
      by_cases hxi : x.id = i
      · have hxr : x.id ≠ r.id := by
          rw [hxi]
          intro hh
          exact hri hh.symm
        simp [hxi, hxr]
        intro hh
        exact hri hh.symm
      · simp [hxi]
    rw [List.countP_filter, hfun]
    simp [hri]

/-- `find?` ignores filtered-out elements when the predicate implies the
filter. -/
theorem find?_filter_of_imp {α : Type} (p q : α → Bool) (l : List α)
    (h : ∀ a, p a = true → q a = true) :
    (l.filter q).find? p = l.find? p := by
  induction l with
  | nil => rfl
  | cons a l ih =>
      by_cases hq : q a = true
      · rw [List.filter_cons, if_pos hq]
        by_cases hp : p a = true
        · simp [List.find?_cons, hp]
        · simp [List.find?_cons, hp, ih]
      · have hp : p a = false := by
          cases hpa : p a
          · rfl
          · exact absurd (h a hpa) hq
        rw [List.filter_cons, if_neg hq]
        simp [List.find?_cons, hp, ih]

/-- The row found by id after one upsert: the upserted id maps to the fresh
row, every other id keeps its row. -/
theorem find?_upsertPost (t : List PostRow) (r : PostRow) (i : String) :
    (upsertPost t r).find? (fun x => x.id == i) =
      if r.id == i then some r else t.find? (fun x => x.id == i) := by
  unfold upsertPost
  rw [List.find?_append]
  by_cases hri : r.id = i
  · have hnone : (t.filter (fun x => x.id ≠ r.id)).find? (fun x => x.id == i) = none := by
      rw [List.find?_eq_none]
      intro x hx
      have := (List.mem_filter.mp hx).2
      simp only [ne_eq, decide_not, Bool.not_eq_true', decide_eq_false_iff_not] at this
      simp [hri ▸ this]
    simp [hnone, List.find?_cons, hri]
  · have heq : (t.filter (fun x => x.id ≠ r.id)).find? (fun x => x.id == i) =
        t.find? (fun x => x.id == i) := by
      apply find?_filter_of_imp
      intro a ha
      have hai : a.id = i := by simpa using ha
      simp [hai]
      intro hcontra
      exact hri hcontra.symm
    rw [heq]
    cases hf : t.find? (fun x => x.id == i) with
    | none => simp [List.find?_cons, hri]
    | some x => simp [hri]

/-- Row count by id after any sequence of upserts into any table. -/
theorem countP_foldl_upsert (i : String) :
    ∀ (rs : List PostRow) (t : List PostRow),
      ((rs.foldl upsertPost t).countP (fun x => x.id == i)) =
        if rs.any (fun r => r.id == i) then 1 else t.countP (fun x => x.id == i)
  | [], t => by simp
  | r :: rs, t => by
      rw [List.foldl_cons, countP_foldl_upsert i rs (upsertPost t r)]
      rw [countP_upsertPost]
      by_cases hrs : rs.any (fun r => r.id == i) = true
      · simp [hrs]
      · by_cases hr : r.id == i
        · simp [hrs, hr]
        · simp [hrs, hr]

/-- The row found by id after any sequence of upserts into any table: the
last upsert with that id wins; failing that the original table's row. -/
theorem find?_foldl_upsert (i : String) :
    ∀ (rs : List PostRow) (t : List PostRow),
      (rs.foldl upsertPost t).find? (fun x => x.id == i) =
        (match rs.reverse.find? (fun r => r.id == i) with
          | some r => some r
          | none => t.find? (fun x => x.id == i))
  | [], t => by simp
  | r :: rs, t => by
      rw [List.foldl_cons, find?_foldl_upsert i rs (upsertPost t r)]
      rw [find?_upsertPost]
      rw [List.reverse_cons, List.find?_append]
      cases hrev : rs.reverse.find? (fun r => r.id == i) with
      | some x => simp
      | none =>
          by_cases hr : r.id == i
          · simp [List.find?_cons, hr]
          · simp [List.find?_cons, hr]

/-- C4: the posts-table upsert is idempotent and keyed by id — upserting the
same record twice produces the same table as upserting it once; after any
sequence of upserts into an initially empty table there is exactly one row
per id ever upserted (and none for other ids); and the row stored for an id
is exactly the most recently upserted record with that id. -/
theorem c4_upsert_idempotent_lww :
    (∀ (t : List PostRow) (r : PostRow), upsertPost (upsertPost t r) r = upsertPost t r) ∧
    (∀ (rs : List PostRow) (i : String),
      ((rs.foldl upsertPost []).countP (fun x => x.id == i)) =
        if rs.any (fun r => r.id == i) then 1 else 0) ∧
    (∀ (rs : List PostRow) (i : String),
      (rs.foldl upsertPost []).find? (fun x => x.id == i) =
        rs.reverse.find? (fun r => r.id == i)) := by
  refine ⟨?_, ?_, ?_⟩
  · intro t r
    unfold upsertPost
    rw [List.filter_append, List.filter_filter]
    have h1 : [r].filter (fun x => x.id ≠ r.id) = [] := by simp
    have h2 : t.filter (fun a => decide (a.id ≠ r.id) && decide (a.id ≠ r.id)) =
        t.filter (fun a => a.id ≠ r.id) := by
      apply List.filter_congr
      intro a _
      simp
    rw [h1, h2, List.append_nil]
  · intro rs i
    rw [countP_foldl_upsert]
    simp
  · intro rs i
    rw [find?_foldl_upsert]
    cases hrev : rs.reverse.find? (fun r => r.id == i) with
    | some x => rfl
    | none => simp

-- ==================== C7: pagination partitions the ordered rows ====================

/-- Successive `size`-sized slices at offsets `0, size, 2*size, …` exactly
reassemble the list. -/
theorem pages_join {α : Type} (size : Nat) (hs : 1 ≤ size) :
    ∀ (n : Nat) (l : List α), l.length ≤ n * size →
      (List.range n).flatMap (fun k => (l.drop (k * size)).take size) = l
  | 0, l => by
      intro h
      have hl : l = [] := List.eq_nil_of_length_eq_zero (by omega)
      simp [hl]
  | n + 1, l => by
      intro h
      rw [List.range_succ_eq_map, List.flatMap_cons, List.flatMap_map]
      have hfun : (fun k => (l.drop (Nat.succ k * size)).take size) =
          (fun k => (((l.drop size).drop (k * size)).take size) : Nat → List α) := by
        funext k
        rw [List.drop_drop]
        congr 2
        rw [Nat.succ_mul]
        omega
      rw [hfun]
      rw [Nat.succ_mul] at h
      rw [pages_join size hs n (l.drop size) (by rw [List.length_drop]; omega)]
      simp [List.take_append_drop]

/-- The deterministic model `getPosts` is the execution that picks the
insertion-sort realization `sqlOrderedRows` as its ORDER BY outcome. -/
theorem getPosts_eq_getPostsExec (table : List PostRow) (page : Int)
    (sortBy sortDirection query : String) (perPage : Int) :
    getPosts table page sortBy sortDirection query perPage =
      getPostsExec (sqlOrderedRows sortBy sortDirection query table) page sortBy
        sortDirection perPage := rfl

/-- The page-`p` slice form of one valid paged-read execution (with `p ≥ 1`
and a positive page size, the OFFSET/LIMIT pair trims that execution's
ordered rows to the `p`-th `size`-sized slice). -/
theorem getPostsExec_slice (ord : List PostRow) (sortBy sortDirection : String)
    (size : Nat) (h1 : sortBy ∈ validSortColumns)
    (h2 : sortDirection ∈ (["asc", "desc"] : List String)) (hs : 1 ≤ size)
    (p : Nat) (hp : 1 ≤ p) :
    getPostsExec ord (p : Int) sortBy sortDirection (size : Int) =
      ((ord.drop ((p - 1) * size)).take size).map projectRow := by
  unfold getPostsExec
  rw [if_neg (not_not_intro ⟨h1, h2⟩)]
  simp only [sqlLimitOffset]
  have hlim : ¬ ((size : Int) < 0) := by omega
  rw [if_neg hlim]
  have hoff : (((p : Int) - 1) * (size : Int)).toNat = (p - 1) * size := by
    have hc : ((p : Int) - 1) = (((p - 1 : Nat) : Int)) := by omega
    rw [hc, ← Nat.cast_mul, Int.toNat_natCast]
  rw [hoff, Int.toNat_natCast]

/-- Concatenating pages `1, 2, …` all served from one and the same engine
ordering reassembles that ordering exactly. -/
theorem getPostsExec_join (ord : List PostRow) (sortBy sortDirection : String)
    (size : Nat) (h1 : sortBy ∈ validSortColumns)
    (h2 : sortDirection ∈ (["asc", "desc"] : List String)) (hs : 1 ≤ size) :
    (List.range ((ord.length + size - 1) / size)).flatMap
        (fun k => getPostsExec ord ((k + 1 : Nat) : Int) sortBy sortDirection (size : Int)) =
      ord.map projectRow := by
  have hslice : ∀ k : Nat,
      getPostsExec ord ((k + 1 : Nat) : Int) sortBy sortDirection (size : Int) =
        ((ord.drop (k * size)).take size).map projectRow := by
    intro k
    rw [getPostsExec_slice ord sortBy sortDirection size h1 h2 hs (k + 1) (by omega)]
    simp
  have hfun : (fun k =>
      getPostsExec ord ((k + 1 : Nat) : Int) sortBy sortDirection (size : Int)) =
      (fun k => ((ord.drop (k * size)).take size).map projectRow) := funext hslice
  rw [hfun]
  have hjoin := pages_join size hs ((ord.length + size - 1) / size) ord
    (by
      have := @Nat.lt_div_mul_add (ord.length + size - 1) size (by omega)
      omega)
  conv_rhs => rw [← hjoin]
  rw [List.map_flatMap]

/-- Two rows with tied sort keys (equal `comment_count`) for the C7
counterexample. -/
def c7rowA : PostRow := ⟨"1", "A", "2020-01", 5, 0, "", "uA"⟩

def c7rowB : PostRow := ⟨"2", "B", "2020-02", 5, 0, "", "uB"⟩

/-- C7 counterexample: on tied sort keys the source query (no secondary
sort key) admits more than one ORDER BY outcome for the same table and
query.  Serving page 1 from one admissible execution and page 2 from
another — as the code does, one SQL execution per `getPosts` call —
returns the same row on both pages and skips the other row, so the claimed
"no row on two pages, none missing, ties broken deterministically"
property is false on the code. -/
theorem c7_counterexample :
    isOrderByResult "comment_count" "desc" "" [c7rowA, c7rowB] [c7rowA, c7rowB] ∧
    isOrderByResult "comment_count" "desc" "" [c7rowA, c7rowB] [c7rowB, c7rowA] ∧
    getPostsExec [c7rowA, c7rowB] 1 "comment_count" "desc" 1 = [projectRow c7rowA] ∧
    getPostsExec [c7rowB, c7rowA] 2 "comment_count" "desc" 1 = [projectRow c7rowA] ∧
    projectRow c7rowA ≠ projectRow c7rowB :=
  ⟨by decide, by decide, by decide, by decide, by decide⟩

/-- C7 (amended): pagination partitions the matching rows relative to a
single engine ordering: for any one admissible ORDER BY outcome `ord`
(valid sort parameters, positive page size), page `p` computed from `ord`
is exactly the `p`-th `size`-slice of `ord`; the concatenation of all
pages served from `ord` reassembles `ord` exactly (no row on two pages,
none skipped); and `ord` is a permutation of the matching rows.  Distinct
executions may order tied keys differently (the source has no secondary
sort key), and pages served from different executions can then duplicate
or skip rows, as the counterexample shows. -/
theorem c7_pagination_partition (table ord : List PostRow)
    (query sortBy sortDirection : String) (size : Nat)
    (h1 : sortBy ∈ validSortColumns)
    (h2 : sortDirection ∈ (["asc", "desc"] : List String)) (hs : 1 ≤ size)
    (hord : isOrderByResult sortBy sortDirection query table ord) :
    (∀ p : Nat, 1 ≤ p →
      getPostsExec ord (p : Int) sortBy sortDirection (size : Int) =
        ((ord.drop ((p - 1) * size)).take size).map projectRow) ∧
    ((List.range ((ord.length + size - 1) / size)).flatMap
        (fun k => getPostsExec ord ((k + 1 : Nat) : Int) sortBy sortDirection (size : Int)) =
      ord.map projectRow) ∧
    ord.Perm (table.filter (likeRow query)) :=
  ⟨fun p hp => getPostsExec_slice ord sortBy sortDirection size h1 h2 hs p hp,
    getPostsExec_join ord sortBy sortDirection size h1 h2 hs,
    hord.1⟩

/-- Witness for C7 (amended) over a one-row table and its unique admissible
ordering, with page size 10. -/
theorem c7_pagination_partition_witness :
    ("comment_count" ∈ validSortColumns ∧ "desc" ∈ (["asc", "desc"] : List String) ∧
      1 ≤ 10 ∧ isOrderByResult "comment_count" "desc" "" [c7rowA] [c7rowA]) ∧
    ((∀ p : Nat, 1 ≤ p →
      getPostsExec [c7rowA] (p : Int) "comment_count" "desc" (10 : Int) =
        (([c7rowA].drop ((p - 1) * 10)).take 10).map projectRow) ∧
    ((List.range ((([c7rowA] : List PostRow).length + 10 - 1) / 10)).flatMap
        (fun k => getPostsExec [c7rowA] ((k + 1 : Nat) : Int) "comment_count" "desc" (10 : Int)) =
      [c7rowA].map projectRow) ∧
    ([c7rowA] : List PostRow).Perm ([c7rowA].filter (likeRow ""))) :=
  ⟨⟨by decide, by decide, by decide, by decide⟩,
    c7_pagination_partition [c7rowA] [c7rowA] "" "comment_count" "desc" 10
      (by decide) (by decide) (by decide) (by decide)⟩

-- ==================== C8: the search filter is SQL LIKE, not plain substring ====================

theorem likeMatches_pct_nil (ps : List Char) :
    likeMatches ('%' :: ps) [] = likeMatches ps [] := by
  simp [likeMatches, likeScan]

theorem likeMatches_pct_cons (ps : List Char) (c : Char) (ts : List Char) :
    likeMatches ('%' :: ps) (c :: ts) =
      (likeMatches ps (c :: ts) || likeMatches ('%' :: ps) ts) := by
  simp [likeMatches, likeScan]

/-- A leading `%` matches an arbitrary prefix. -/
theorem likeMatches_pct_iff (ps : List Char) (t : List Char) :
    likeMatches ('%' :: ps) t = true ↔
      ∃ n, n ≤ t.length ∧ likeMatches ps (t.drop n) = true := by
  induction t with
  | nil =>
      rw [likeMatches_pct_nil]
      constructor
      · intro h
        exact ⟨0, by omega, h⟩
      · rintro ⟨n, _, h⟩
        simpa using h
  | cons c ts ih =>
      rw [likeMatches_pct_cons, Bool.or_eq_true]
      constructor
      · rintro (h | h)
        · exact ⟨0, by omega, by simpa using h⟩
        · rcases ih.mp h with ⟨n, hn, h'⟩
          exact ⟨n + 1, by simp; omega, by simpa using h'⟩
      · rintro ⟨n, hn, h⟩
        cases n with
        | zero => exact Or.inl (by simpa using h)
        | succ m =>
            exact Or.inr (ih.mpr ⟨m, by simp at hn; omega, by simpa using h⟩)

/-- The pattern `%` alone matches every text. -/
theorem likeMatches_pct_only (t : List Char) : likeMatches ['%'] t = true := by
  induction t with
  | nil => simp [likeMatches, likeScan]
  | cons c ts ih => rw [likeMatches_pct_cons]; simp [ih]

theorem likeMatches_char_nil (c : Char) (hc1 : c ≠ '%') (ps : List Char) :
    likeMatches (c :: ps) [] = false := by
  conv_lhs => rw [likeMatches]
  simp [hc1]

theorem likeMatches_char_cons (c : Char) (hc1 : c ≠ '%') (hc2 : c ≠ '_')
    (ps : List Char) (d : Char) (ts : List Char) :
    likeMatches (c :: ps) (d :: ts) =
      ((c.toLower == d.toLower) && likeMatches ps ts) := by
  conv_lhs => rw [likeMatches]
  simp [hc1, hc2]

/-- A wildcard-free pattern prefix consumes exactly a case-insensitively
equal text prefix. -/
theorem likeMatches_append_of_noWild (ps : List Char) (q : List Char)
    (hp : '%' ∉ q) (hu : '_' ∉ q) :
    ∀ t, likeMatches (q ++ ps) t = true ↔
      ∃ t₁ t₂, t = t₁ ++ t₂ ∧ q.map Char.toLower = t₁.map Char.toLower ∧
        likeMatches ps t₂ = true := by
  revert hp hu
  induction q with
  | nil =>
      intro _ _ t
      constructor
      · intro h
        exact ⟨[], t, rfl, rfl, by simpa using h⟩
      · rintro ⟨t₁, t₂, rfl, h1, h2⟩
        have ht1 : t₁ = [] := by
          cases t₁ with
          | nil => rfl
          | cons x xs => simp at h1
        subst ht1
        simpa using h2
  | cons c q' ih =>
      intro hp hu t
      have hc1 : c ≠ '%' := fun h => hp (h ▸ List.mem_cons_self c q')
      have hc2 : c ≠ '_' := fun h => hu (h ▸ List.mem_cons_self c q')
      have hp' : '%' ∉ q' := fun h => hp (List.mem_cons_of_mem c h)
      have hu' : '_' ∉ q' := fun h => hu (List.mem_cons_of_mem c h)
      cases t with
      | nil =>
          rw [List.cons_append, likeMatches_char_nil c hc1]
          constructor
          · intro h; cases h
          · rintro ⟨t₁, t₂, heq, h1, _⟩
            cases t₁ with
            | nil =>
                cases t₂ with
                | nil => simp at h1
                | cons x xs => simp at heq
            | cons x xs => simp at heq
      | cons d ts =>
          rw [List.cons_append, likeMatches_char_cons c hc1 hc2 _ d ts, Bool.and_eq_true]
          constructor
          · rintro ⟨hcd, h⟩
            rcases (ih hp' hu' ts).mp h with ⟨t₁, t₂, rfl, hm, hps⟩
            refine ⟨d :: t₁, t₂, rfl, ?_, hps⟩
            simp only [List.map_cons]
            rw [hm]
            congr 1
            exact eq_of_beq hcd
          · rintro ⟨t₁, t₂, heq, hm, hps⟩
            cases t₁ with
            | nil => simp at hm
            | cons e t₁' =>
                rw [List.cons_append] at heq
                injection heq with h1 h2
                subst h1
                simp only [List.map_cons, List.cons.injEq] at hm
                refine ⟨by rw [hm.1]; simp, (ih hp' hu' ts).mpr ⟨t₁', t₂, h2, hm.2, hps⟩⟩

/-- For a wildcard-free search text, the `LIKE "%" || q || "%"` filter is
exactly ASCII-case-insensitive substring containment in the title. -/
theorem likeRow_iff_ci_infix (q : String) (hp : '%' ∉ q.data) (hu : '_' ∉ q.data)
    (r : PostRow) :
    likeRow q r = true ↔
      (q.data.map Char.toLower) <:+: (r.title.data.map Char.toLower) := by
  unfold likeRow
  rw [likeMatches_pct_iff]
  constructor
  · rintro ⟨n, hn, h⟩
    rcases (likeMatches_append_of_noWild ['%'] q.data hp hu _).mp h with
      ⟨t₁, t₂, hsplit, hm, _⟩
    refine ⟨(r.title.data.take n).map Char.toLower, t₂.map Char.toLower, ?_⟩
    have hfull : r.title.data = r.title.data.take n ++ (t₁ ++ t₂) := by
      rw [← hsplit, List.take_append_drop]
    conv_rhs => rw [hfull]
    rw [List.map_append, List.map_append, ← hm, List.append_assoc]
  · rintro ⟨s, t', hst⟩
    refine ⟨s.length, ?_, ?_⟩
    · have hlen := congrArg List.length hst
      simp only [List.length_append, List.length_map] at hlen
      omega
    · apply (likeMatches_append_of_noWild ['%'] q.data hp hu _).mpr
      refine ⟨(r.title.data.drop s.length).take q.data.length,
        (r.title.data.drop s.length).drop q.data.length,
        (List.take_append_drop _ _).symm, ?_, likeMatches_pct_only _⟩
      have hst' : s ++ (q.data.map Char.toLower ++ t') = r.title.data.map Char.toLower := by
        rw [← List.append_assoc]
        exact hst
      have hdrop : (r.title.data.drop s.length).map Char.toLower =
          q.data.map Char.toLower ++ t' := by
        rw [List.map_drop, ← hst', List.drop_left]
      rw [List.map_take, hdrop]
      rw [show q.data.length = (q.data.map Char.toLower).length by simp]
      rw [List.take_left]

/-- C8 counterexample: with `searchText = "%"` over a table whose single
row is titled `"Special"`, `getPosts` returns that row even though its
title does not contain `"%"` as a substring under either case convention —
the filter implements SQL LIKE wildcards, not plain substring containment,
so the claim as stated fails for wildcard search text. -/
theorem c8_counterexample :
    getPosts [⟨"1", "Special", "2020", 0, 0, "", "u"⟩] 1 "comment_count" "desc" "%" 10 =
      [⟨"Special", "2020", 0, 0, "u"⟩] ∧
    ¬ ("%".data <:+: "Special".data) ∧
    ¬ ("%".data.map Char.toLower <:+: ("Special".data.map Char.toLower)) :=
  ⟨by decide, by decide, by decide⟩

/-- C8 (amended): for every search text free of the LIKE wildcards `%` and
`_`, the filter keeps exactly the rows whose title contains the search text
as an ASCII-case-insensitive substring, matching against the title only;
the empty search text matches every row; and for every admissible engine
ordering of one execution (valid sort parameters, positive page size) the
union of all pages served from that ordering is a permutation of exactly
the projections of the matching rows. -/
theorem c8_amended_like_filter (q : String) (hp : '%' ∉ q.data) (hu : '_' ∉ q.data) :
    (∀ r : PostRow, likeRow q r = true ↔
      (q.data.map Char.toLower) <:+: (r.title.data.map Char.toLower)) ∧
    (∀ r : PostRow, likeRow "" r = true) ∧
    (∀ (table ord : List PostRow) (sortBy sortDirection : String) (size : Nat),
      isOrderByResult sortBy sortDirection q table ord →
      sortBy ∈ validSortColumns → sortDirection ∈ (["asc", "desc"] : List String) →
      1 ≤ size →
      ((List.range ((ord.length + size - 1) / size)).flatMap
          (fun k => getPostsExec ord ((k + 1 : Nat) : Int) sortBy sortDirection (size : Int))).Perm
        ((table.filter (likeRow q)).map projectRow)) := by
  refine ⟨fun r => likeRow_iff_ci_infix q hp hu r, ?_, ?_⟩
  · intro r
    unfold likeRow
    rw [likeMatches_pct_iff]
    exact ⟨0, by omega, by simpa using likeMatches_pct_only r.title.data⟩
  · intro table ord sortBy sortDirection size hord h1 h2 hs
    rw [getPostsExec_join ord sortBy sortDirection size h1 h2 hs]
    exact List.Perm.map projectRow hord.1

/-- Witness for C8 (amended) at the spec's fixture search text `"Episode"`:
the theorem plus a concrete evaluation shows the row titled `"Episode 1"`
matches. -/
theorem c8_amended_like_filter_witness :
    ('%' ∉ "Episode".data) ∧ ('_' ∉ "Episode".data) ∧
    likeRow "Episode" ⟨"1", "Episode 1", "2020-01", 0, 0, "", "u1"⟩ = true ∧
    likeRow "Episode" ⟨"2", "Special", "2020-02", 0, 0, "", "u2"⟩ = false :=
  ⟨by decide, by decide,
    ((c8_amended_like_filter "Episode" (by decide) (by decide)).1
      ⟨"1", "Episode 1", "2020-01", 0, 0, "", "u1"⟩).mpr (by decide),
    by decide⟩

-- ==================== C2: resumption and read-before-write ====================

/-- The first URL a (non-empty-budget) fetch loop fetches is its start URL. -/
theorem fetchLoop_trace_head (feed : String → Option PatreonApiResponse) (fuel : Nat)
    (url : String) (table : List PostRow) (ret : Nat) :
    (fetchLoop feed (fuel + 1) url table ret []).trace.head? = some url := by
  cases h : feed url with
  | none => rw [fetchLoop_fault fuel _ _ _ h]; rfl
  | some posts =>
    cases hn : posts.links.next with
    | none => rw [fetchLoop_last fuel _ _ _ h hn]; rfl
    | some nxt =>
      by_cases he : nxt = ""
      · subst he
        rw [fetchLoop_empty_next fuel _ _ _ h hn]; rfl
      · rw [fetchLoop_step fuel _ _ _ h hn he,
          fetchLoop_trace_shift feed fuel nxt _ _ ([] ++ [url])]
        rfl

/-- When the resume cursor is a truthy URL `u` and Phase A does not fault,
Phase B's fetch sequence is the 20-budget loop started at `u` (whether or
not Phase B later faults). -/
theorem sync_traceB_of_resume (feed : String → Option PatreonApiResponse) (t t' : Nat)
    (st : StorageState) (u : String)
    (ha : (syncPhaseA feed st).faulted = false)
    (hu : resumeUrl feed st = some u) (hne : u ≠ "") :
    (syncInPostsFromPatreon feed t t' st).traceB =
      (fetchLoop feed 20 u (syncPhaseA feed st).posts
        (syncPhaseA feed st).retrieved []).trace := by
  have hres : (match getLastRun st.patreon_post_runs with
      | some lr => if truthy lr.last_next_link then lr.last_next_link
                   else (syncPhaseA feed st).nextUrl
      | none => (syncPhaseA feed st).nextUrl) = resumeUrl feed st := rfl
  simp only [syncInPostsFromPatreon, syncPhaseA_runStart]
  rw [if_neg (by simp [ha]), hres, hu]
  rw [if_pos (by simp [truthy, hne])]
  split
  · rename_i uu heq
    injection heq with h
    subst h
    split <;> rfl
  · rename_i heq
    exact Option.noConfusion heq

/-- The simulated remote used by the C2 counterexample: the recency page is
a single last page, and the archive cursor `"x"` yields a page whose `next`
link is the empty string. -/
def feedC2 : String → Option PatreonApiResponse := fun s =>
  if s = recentPostsUrl then some ⟨[], ⟨⟨0⟩⟩, ⟨none⟩⟩
  else if s = "x" then some ⟨[], ⟨⟨0⟩⟩, ⟨some ""⟩⟩
  else none

/-- The starting state for the C2 counterexample: an earlier run left the
archive cursor `"x"`. -/
def c2state0 : StorageState := ⟨[], [⟨0, none, none, some "x"⟩]⟩

/-- C2 counterexample: run K (time 1) finalizes with the *non-null* resume
cursor `""` (the feed handed out an empty-string `next` link, which the
code stores as is), yet run K+1 (time 2) issues no Phase-B fetch at all —
its first Phase-B fetch is not at cursor `""` — because JavaScript
truthiness discards the empty-string cursor.  The claim as stated is
therefore false. -/
theorem c2_counterexample :
    (getLastRun (syncInPostsFromPatreon feedC2 1 1 c2state0).state.patreon_post_runs).map
        (fun lr => lr.last_next_link) = some (some "") ∧
    (syncInPostsFromPatreon feedC2 2 2
        (syncInPostsFromPatreon feedC2 1 1 c2state0).state).traceB = [] :=
  ⟨by decide, by decide⟩

/-- C2 (amended): the previous run's cursor is read before any write of the
current run (the run-start insert of run K+1 — a row whose cursor column is
NULL and whose `started_at` would win the latest-run query — does not
affect the cursor used), and if run K finalizes with a non-null, non-empty
resume cursor `c`, then run K+1 — provided its Phase A does not fault, and
whatever feed it sees — issues its first Phase-B fetch at exactly `c`. -/
theorem c2_amended_resumption (feed feed' : String → Option PatreonApiResponse)
    (st : StorageState) (t₁ t₁e t₂ t₂e : Nat) (lr : RunRow) (c : String)
    (hK : getLastRun
        (syncInPostsFromPatreon feed t₁ t₁e st).state.patreon_post_runs = some lr)
    (hc : lr.last_next_link = some c) (hne : c ≠ "")
    (hA : (syncPhaseA feed'
        (syncInPostsFromPatreon feed t₁ t₁e st).state).faulted = false) :
    (syncInPostsFromPatreon feed' t₂ t₂e
        (syncInPostsFromPatreon feed t₁ t₁e st).state).traceB.head? = some c := by
  have hres : resumeUrl feed' (syncInPostsFromPatreon feed t₁ t₁e st).state = some c := by
    unfold resumeUrl
    simp only [hK, hc]
    rw [if_pos (by simp [truthy, hne])]
  rw [sync_traceB_of_resume feed' t₂ t₂e _ c hA hres hne]
  exact fetchLoop_trace_head feed' 19 c _ _

/-- The feed for the C2 witness: the archive cursor `"x"` loops to itself,
so run K exhausts its Phase-B budget and stores `"x"` as resume cursor. -/
def feedC2W : String → Option PatreonApiResponse := fun s =>
  if s = recentPostsUrl then some ⟨[], ⟨⟨0⟩⟩, ⟨none⟩⟩
  else if s = "x" then some ⟨[], ⟨⟨0⟩⟩, ⟨some "x"⟩⟩
  else none

/-- Witness for C2 (amended): a concrete two-run scenario in which run K
(time 1) finalizes with resume cursor `"x"` and run K+1 (time 2) indeed
fetches `"x"` first in Phase B. -/
theorem c2_amended_resumption_witness :
    (getLastRun
        (syncInPostsFromPatreon feedC2W 1 1 ⟨[], [⟨0, none, none, some "x"⟩]⟩).state.patreon_post_runs =
      some ⟨1, some 0, some 0, some "x"⟩) ∧
    (syncInPostsFromPatreon feedC2W 2 2
        (syncInPostsFromPatreon feedC2W 1 1 ⟨[], [⟨0, none, none, some "x"⟩]⟩).state).traceB.head? =
      some "x" :=
  ⟨by decide,
    c2_amended_resumption feedC2W feedC2W ⟨[], [⟨0, none, none, some "x"⟩]⟩ 1 1 2 2
      ⟨1, some 0, some 0, some "x"⟩ "x" (by decide) (by decide) (by decide) (by decide)⟩

-- ==================== C3: a fault aborts the whole run, which does not finalize ====================

/-- C3 counterexample: a feed whose very first fetch faults.  The run is
aborted (`faulted = true`) and its RunRecord is *not* completed — the run
row holds NULL duration, items and cursor — contradicting "the run still
finalizes normally, writing its RunRecord completion". -/
theorem c3_counterexample :
    (syncInPostsFromPatreon (fun _ => none) 5 5 ⟨[], []⟩).faulted = true ∧
    (syncInPostsFromPatreon (fun _ => none) 5 5 ⟨[], []⟩).state.patreon_post_runs =
      [⟨5, none, none, none⟩] :=
  ⟨by decide, by decide⟩

/-- C3 (amended): a fetch/parse fault aborts the remainder of the *run*,
not just the phase: every record upserted before the fault (and every
previously stored id) remains stored — the final posts table is exactly the
one produced by the completed prefix of fetches — but the run does not
finalize: its run row keeps NULL duration, item count and cursor. -/
theorem c3_amended_fault_aborts_run (feed : String → Option PatreonApiResponse)
    (t t' : Nat) (st : StorageState)
    (hfresh : ∀ x ∈ st.patreon_post_runs, x.started_at < t)
    (hf : (syncInPostsFromPatreon feed t t' st).faulted = true) :
    getLastRun (syncInPostsFromPatreon feed t t' st).state.patreon_post_runs =
        some ⟨t, none, none, none⟩ ∧
    (∀ s ∈ tableIds st.patreon_posts,
        s ∈ tableIds (syncInPostsFromPatreon feed t t' st).state.patreon_posts) ∧
    ((syncInPostsFromPatreon feed t t' st).state.patreon_posts =
        (syncPhaseA feed st).posts ∨
      ∃ u, u ≠ "" ∧ resumeUrl feed st = some u ∧
        (syncInPostsFromPatreon feed t t' st).state.patreon_posts =
          (fetchLoop feed 20 u (syncPhaseA feed st).posts
            (syncPhaseA feed st).retrieved []).posts) := by
  have hle : ∀ x ∈ st.patreon_post_runs, x.started_at ≤ t :=
    fun x hx => Nat.le_of_lt (hfresh x hx)
  cases ha : (syncPhaseA feed st).faulted with
  | true =>
      rw [sync_phaseA_fault feed t t' st ha]
      refine ⟨getLastRun_append_max _ _ hle, ?_, Or.inl rfl⟩
      intro s hs
      exact fetchLoop_preserves_ids feed 20 recentPostsUrl st.patreon_posts 0 [] s hs
  | false =>
      cases hr : truthy (resumeUrl feed st) with
      | false =>
          rw [sync_run_falsy feed t t' st hfresh ha hr] at hf
          simp at hf
      | true =>
          obtain ⟨u, hu, hne⟩ : ∃ u, resumeUrl feed st = some u ∧ u ≠ "" := by
            cases hru : resumeUrl feed st with
            | none => rw [hru] at hr; simp [truthy] at hr
            | some v =>
                refine ⟨v, rfl, ?_⟩
                rw [hru] at hr
                simp [truthy] at hr
                exact hr
          cases hb : (fetchLoop feed 20 u (syncPhaseA feed st).posts
              (syncPhaseA feed st).retrieved []).faulted with
          | false =>
              rw [sync_run_resume feed t t' st u hfresh ha hu hne hb] at hf
              simp at hf
          | true =>
              rw [sync_phaseB_fault feed t t' st u ha hu hne hb]
              refine ⟨getLastRun_append_max _ _ hle, ?_, Or.inr ⟨u, hne, hu, rfl⟩⟩
              intro s hs
              have h1 : s ∈ tableIds (syncPhaseA feed st).posts :=
                fetchLoop_preserves_ids feed 20 recentPostsUrl st.patreon_posts 0 [] s hs
              exact fetchLoop_preserves_ids feed 20 u _ _ [] s h1

/-- Witness for C3 (amended) at the all-faulting feed over a fresh store. -/
theorem c3_amended_fault_aborts_run_witness :
    (∀ x ∈ (⟨[], []⟩ : StorageState).patreon_post_runs, x.started_at < 5) ∧
    getLastRun (syncInPostsFromPatreon (fun _ => none) 5 5 ⟨[], []⟩).state.patreon_post_runs =
      some ⟨5, none, none, none⟩ :=
  ⟨by simp,
    (c3_amended_fault_aborts_run (fun _ => none) 5 5 ⟨[], []⟩ (by simp) (by decide)).1⟩

-- ==================== C1: coverage of a simulated linear feed ====================

theorem pageUrl_ne_empty (k : Nat) (hk : 1 ≤ k) : pageUrl k ≠ "" := by
  cases k with
  | zero => omega
  | succ m =>
      intro h
      have hdata := congrArg String.data h
      simp [pageUrl, List.replicate_succ] at hdata

theorem decodeCursor_pageUrl (k : Nat) (hk : 1 ≤ k) : decodeCursor (pageUrl k) = some k := by
  cases k with
  | zero => omega
  | succ m =>
      unfold decodeCursor pageUrl
      have hall : (List.replicate (m + 1) 'p').all (fun c => c = 'p') = true := by
        rw [List.all_eq_true]
        intro x hx
        simp [List.eq_of_mem_replicate hx]
      have hempty : (List.replicate (m + 1) 'p').isEmpty = false := by
        rw [List.replicate_succ]
        rfl
      simp [hall, hempty]

theorem decodeCursor_recent : decodeCursor recentPostsUrl = none := by decide

theorem pageUrl_ne_recent (k : Nat) (hk : 1 ≤ k) : pageUrl k ≠ recentPostsUrl := by
  intro h
  have h1 := decodeCursor_pageUrl k hk
  rw [h, decodeCursor_recent] at h1
  exact Option.noConfusion h1

theorem linFeed_recent (n : Nat) (hn : 0 < n) :
    linFeed n recentPostsUrl = some (linPage n 0) := by
  simp [linFeed, hn]

theorem linFeed_pageUrl (n k : Nat) (hk : 1 ≤ k) (hkn : k < n) :
    linFeed n (pageUrl k) = some (linPage n k) := by
  unfold linFeed
  rw [if_neg (pageUrl_ne_recent k hk)]
  simp only [decodeCursor_pageUrl k hk]
  rw [if_pos hkn]

theorem linPage_next (n k : Nat) :
    (linPage n k).links.next = if k + 1 < n then some (pageUrl (k + 1)) else none := rfl

theorem upsertJsonPosts_linPage (t : List PostRow) (n k : Nat) :
    upsertJsonPosts t (linPage n k) =
      upsertPost t (rowOfPost ⟨postId k, ⟨0, 0, "", "", "", ""⟩⟩) := rfl

theorem postId_mem_upsert_linPage (t : List PostRow) (n k : Nat) :
    postId k ∈ tableIds (upsertJsonPosts t (linPage n k)) := by
  rw [upsertJsonPosts_linPage]
  exact self_mem_tableIds_upsertPost t _

/-- Behaviour of a fetch loop over the `n`-page simulated feed starting at
page `k` (`1 ≤ k < n`): it never faults, it ends at page cursor `k + fuel`
(or exhausts the feed), it keeps every id already stored, and it upserts
every page in `[k, min (k+fuel) n)`. -/
theorem linFetch (n : Nat) :
    ∀ (fuel k : Nat) (table : List PostRow) (ret : Nat) (tr : List String),
      1 ≤ k → k < n →
      ((fetchLoop (linFeed n) fuel (pageUrl k) table ret tr).faulted = false ∧
       (fetchLoop (linFeed n) fuel (pageUrl k) table ret tr).nextUrl =
         (if k + fuel < n then some (pageUrl (k + fuel)) else none) ∧
       (∀ s ∈ tableIds table,
         s ∈ tableIds (fetchLoop (linFeed n) fuel (pageUrl k) table ret tr).posts) ∧
       (∀ j, k ≤ j → j < min (k + fuel) n →
         postId j ∈ tableIds (fetchLoop (linFeed n) fuel (pageUrl k) table ret tr).posts))
  | 0, k, table, ret, tr => by
      intro hk hkn
      rw [fetchLoop_zero]
      refine ⟨rfl, by rw [if_pos (by omega)]; rfl, fun s hs => hs, fun j hj1 hj2 => ?_⟩
      rw [Nat.add_zero] at hj2
      omega
  | fuel + 1, k, table, ret, tr => by
      intro hk hkn
      have hfeed := linFeed_pageUrl n k hk hkn
      by_cases hnext : k + 1 < n
      · have hn1 : (linPage n k).links.next = some (pageUrl (k + 1)) := by
          rw [linPage_next, if_pos hnext]
        have hne : pageUrl (k + 1) ≠ "" := pageUrl_ne_empty (k + 1) (by omega)
        rw [fetchLoop_step fuel table ret tr hfeed hn1 hne]
        obtain ⟨ihf, ihn, ihpres, ihcov⟩ :=
          linFetch n fuel (k + 1) (upsertJsonPosts table (linPage n k))
            (ret + (linPage n k).data.length) (tr ++ [pageUrl k]) (by omega) hnext
        refine ⟨ihf, ?_, ?_, ?_⟩
        · rw [ihn]
          have harith : k + 1 + fuel = k + (fuel + 1) := by omega
          rw [harith]
        · intro s hs
          exact ihpres s (mem_tableIds_upsertJsonPosts _ _ hs)
        · intro j hj1 hj2
          by_cases hjk : j = k
          · subst hjk
            exact ihpres (postId j) (postId_mem_upsert_linPage table n j)
          · exact ihcov j (by omega) (by omega)
      · have hn1 : (linPage n k).links.next = none := by
          rw [linPage_next, if_neg hnext]
        rw [fetchLoop_last fuel table ret tr hfeed hn1]
        refine ⟨rfl, by rw [if_neg (by omega)], ?_, ?_⟩
        · intro s hs
          exact mem_tableIds_upsertJsonPosts _ _ hs
        · intro j hj1 hj2
          have hjk : j = k := by omega
          subst hjk
          exact postId_mem_upsert_linPage table n j

/-- Behaviour of Phase A over the `n`-page simulated feed: never faults,
ends at cursor `pageUrl 20` exactly when more than 20 pages exist, keeps
old ids and upserts pages `[0, min 20 n)`. -/
theorem linPhaseA (n : Nat) (hn : 1 ≤ n) (table : List PostRow) (ret : Nat) :
    ((fetchLoop (linFeed n) 20 recentPostsUrl table ret []).faulted = false ∧
     (fetchLoop (linFeed n) 20 recentPostsUrl table ret []).nextUrl =
       (if 20 < n then some (pageUrl 20) else none) ∧
     (∀ s ∈ tableIds table,
       s ∈ tableIds (fetchLoop (linFeed n) 20 recentPostsUrl table ret []).posts) ∧
     (∀ j, j < min 20 n →
       postId j ∈ tableIds (fetchLoop (linFeed n) 20 recentPostsUrl table ret []).posts)) := by
  have hfeed : linFeed n recentPostsUrl = some (linPage n 0) := linFeed_recent n (by omega)
  by_cases h1 : 1 < n
  · have hn1 : (linPage n 0).links.next = some (pageUrl 1) := by
      rw [linPage_next, if_pos (by omega)]
    have hne : pageUrl 1 ≠ "" := pageUrl_ne_empty 1 (by omega)
    rw [show (20 : Nat) = 19 + 1 from rfl,
      fetchLoop_step 19 table ret [] hfeed hn1 hne]
    obtain ⟨ihf, ihn, ihpres, ihcov⟩ :=
      linFetch n 19 1 (upsertJsonPosts table (linPage n 0))
        (ret + (linPage n 0).data.length) ([] ++ [recentPostsUrl]) (by omega) h1
    refine ⟨ihf, ?_, ?_, ?_⟩
    · rw [ihn]
    · intro s hs
      exact ihpres s (mem_tableIds_upsertJsonPosts _ _ hs)
    · intro j hj
      by_cases hj0 : j = 0
      · rw [hj0]
        exact ihpres (postId 0) (postId_mem_upsert_linPage table n 0)
      · exact ihcov j (by omega) (by omega)
  · have hn1' : n = 1 := by omega
    subst hn1'
    have hn1 : (linPage 1 0).links.next = none := by
      rw [linPage_next, if_neg (by omega)]
    rw [show (20 : Nat) = 19 + 1 from rfl,
      fetchLoop_last 19 table ret [] hfeed hn1]
    refine ⟨rfl, by rw [if_neg (by omega)], ?_, ?_⟩
    · intro s hs
      exact mem_tableIds_upsertJsonPosts _ _ hs
    · intro j hj
      have hj0 : j = 0 := by omega
      rw [hj0]
      exact postId_mem_upsert_linPage table 1 0

/-- One engine run over the `n`-page simulated feed whose Phase B resumes
at page `c` (`1 ≤ c < n`): the run finalizes, appending a completed run row
whose cursor is `pageUrl (c+20)` (or NULL if the feed ran out), it keeps
every stored id, and it upserts pages `[0, min 20 n)` and
`[c, min (c+20) n)`. -/
theorem linSync_run (n : Nat) (hn : 1 ≤ n) (st : StorageState) (t t' : Nat) (c : Nat)
    (hfresh : ∀ x ∈ st.patreon_post_runs, x.started_at < t)
    (hc1 : 1 ≤ c) (hcn : c < n)
    (hprev : resumeUrl (linFeed n) st = some (pageUrl c)) :
    ∃ R : Nat,
      (syncInPostsFromPatreon (linFeed n) t t' st).state.patreon_post_runs =
        st.patreon_post_runs ++
          [⟨t, some (t' - t), some R,
            if c + 20 < n then some (pageUrl (c + 20)) else none⟩] ∧
      (∀ s ∈ tableIds st.patreon_posts,
        s ∈ tableIds (syncInPostsFromPatreon (linFeed n) t t' st).state.patreon_posts) ∧
      (∀ j, j < min 20 n →
        postId j ∈ tableIds (syncInPostsFromPatreon (linFeed n) t t' st).state.patreon_posts) ∧
      (∀ j, c ≤ j → j < min (c + 20) n →
        postId j ∈ tableIds (syncInPostsFromPatreon (linFeed n) t t' st).state.patreon_posts) := by
  obtain ⟨haf, hanu, hapres, hacov⟩ := linPhaseA n hn st.patreon_posts 0
  have hne : pageUrl c ≠ "" := pageUrl_ne_empty c hc1
  obtain ⟨hbf, hbnu, hbpres, hbcov⟩ :=
    linFetch n 20 c (syncPhaseA (linFeed n) st).posts
      (syncPhaseA (linFeed n) st).retrieved [] hc1 hcn
  rw [sync_run_resume (linFeed n) t t' st (pageUrl c) hfresh haf hprev hne hbf]
  refine ⟨(fetchLoop (linFeed n) 20 (pageUrl c) (syncPhaseA (linFeed n) st).posts
      (syncPhaseA (linFeed n) st).retrieved []).retrieved, ?_, ?_, ?_, ?_⟩
  · rw [hbnu]
  · intro s hs
    exact hbpres s (hapres s hs)
  · intro j hj
    exact hbpres (postId j) (hacov j hj)
  · intro j hj1 hj2
    exact hbcov j hj1 hj2

/-- The state invariant after `m` scheduled runs over the `n`-page simulated
feed, as long as history had not finished before run `m` started: every run
row is no newer than `m`; the latest run row is run `m`'s, finalized with a
cursor pointing at page `20*m + 20` (or NULL once the feed is exhausted);
and every page below `min (20*m + 20) n` has been upserted. -/
theorem linRuns_inv (n : Nat) (hn : 1 ≤ n) :
    ∀ m : Nat, 1 ≤ m → (m = 1 ∨ 20 * (m - 1) + 20 < n) →
      ((∀ x ∈ (linRuns n m).patreon_post_runs, x.started_at ≤ m) ∧
       (∃ lr, getLastRun (linRuns n m).patreon_post_runs = some lr ∧
         lr.started_at = m ∧
         lr.last_next_link =
           (if 20 * m + 20 < n then some (pageUrl (20 * m + 20)) else none)) ∧
       (∀ j, j < min (20 * m + 20) n →
         postId j ∈ tableIds (linRuns n m).patreon_posts))
  | 0 => by
      intro h _
      omega
  | 1 => by
      intro _ _
      have e1 : linRuns n 1 = (syncInPostsFromPatreon (linFeed n) 1 1 ⟨[], []⟩).state := rfl
      have hfresh : ∀ x ∈ (⟨[], []⟩ : StorageState).patreon_post_runs, x.started_at < 1 := by
        intro x hx
        simp at hx
      obtain ⟨haf, hanu, hapres, hacov⟩ :=
        linPhaseA n hn (⟨[], []⟩ : StorageState).patreon_posts 0
      by_cases h20 : 20 < n
      · have hprev : resumeUrl (linFeed n) ⟨[], []⟩ = some (pageUrl 20) := by
          unfold resumeUrl
          have hgl : getLastRun (⟨[], []⟩ : StorageState).patreon_post_runs = none := rfl
          simp only [hgl]
          exact hanu.trans (if_pos h20)
        obtain ⟨R, hruns, hpres, hcovA, hcovB⟩ :=
          linSync_run n hn ⟨[], []⟩ 1 1 20 hfresh (by omega) h20 hprev
        rw [e1]
        refine ⟨?_, ?_, ?_⟩
        · intro x hx
          rw [hruns] at hx
          simp at hx
          rw [hx]
        · refine ⟨⟨1, some 0, some R,
            if 20 + 20 < n then some (pageUrl (20 + 20)) else none⟩, ?_, rfl, ?_⟩
          · rw [hruns]
            exact getLastRun_append_max _ _ (by intro x hx; simp at hx)
          · have h4040 : 20 * 1 + 20 = 20 + 20 := by omega
            rw [h4040]
        · intro j hj
          by_cases hj20 : j < 20
          · exact hcovA j (by omega)
          · exact hcovB j (by omega) (by omega)
      · have hr : truthy (resumeUrl (linFeed n) ⟨[], []⟩) = false := by
          have hprev : resumeUrl (linFeed n) ⟨[], []⟩ = none := by
            unfold resumeUrl
            have hgl : getLastRun (⟨[], []⟩ : StorageState).patreon_post_runs = none := rfl
            simp only [hgl]
            exact hanu.trans (if_neg h20)
          rw [hprev]
          rfl
        rw [e1, sync_run_falsy (linFeed n) 1 1 ⟨[], []⟩ hfresh haf hr]
        refine ⟨?_, ?_, ?_⟩
        · intro x hx
          simp at hx
          rw [hx]
        · refine ⟨⟨1, some (1 - 1), some (syncPhaseA (linFeed n) ⟨[], []⟩).retrieved, none⟩,
            ?_, rfl, ?_⟩
          · exact getLastRun_append_max _ _ (by intro x hx; simp at hx)
          · rw [if_neg (by omega)]
        · intro j hj
          exact hacov j (by omega)
  | m + 2 => by
      intro _ hcase
      have hright : 20 * (m + 1) + 20 < n := by
        rcases hcase with h | h
        · omega
        · omega
      obtain ⟨ih1, ⟨lr, hlr, hlrt, hlrc⟩, ih3⟩ :=
        linRuns_inv n hn (m + 1) (by omega) (by
          rcases Nat.eq_zero_or_pos m with hm | hm
          · exact Or.inl (by omega)
          · exact Or.inr (by omega))
      rw [if_pos hright] at hlrc
      have e2 : linRuns n (m + 2) =
          (syncInPostsFromPatreon (linFeed n) (m + 2) (m + 2) (linRuns n (m + 1))).state := rfl
      have hfresh : ∀ x ∈ (linRuns n (m + 1)).patreon_post_runs, x.started_at < m + 2 := by
        intro x hx
        have := ih1 x hx
        omega
      have hprev : resumeUrl (linFeed n) (linRuns n (m + 1)) =
          some (pageUrl (20 * (m + 1) + 20)) := by
        unfold resumeUrl
        simp only [hlr]
        rw [if_pos (by rw [hlrc]; simp [truthy, pageUrl_ne_empty (20 * (m + 1) + 20) (by omega)])]
        exact hlrc
      obtain ⟨R, hruns, hpres, hcovA, hcovB⟩ :=
        linSync_run n hn (linRuns n (m + 1)) (m + 2) (m + 2) (20 * (m + 1) + 20)
          hfresh (by omega) hright hprev
      rw [e2]
      refine ⟨?_, ?_, ?_⟩
      · intro x hx
        rw [hruns] at hx
        rcases List.mem_append.mp hx with hx | hx
        · have := ih1 x hx
          omega
        · simp at hx
          rw [hx]
      · refine ⟨⟨m + 2, some (m + 2 - (m + 2)), some R,
          if 20 * (m + 1) + 20 + 20 < n then some (pageUrl (20 * (m + 1) + 20 + 20))
          else none⟩, ?_, rfl, ?_⟩
        · rw [hruns]
          refine getLastRun_append_max _ _ ?_
          intro x hx
          have := ih1 x hx
          show x.started_at ≤ m + 2
          omega
        · have harith : 20 * (m + 1) + 20 + 20 = 20 * (m + 2) + 20 := by omega
          rw [harith]
      · intro j hj
        by_cases hjold : j < min (20 * (m + 1) + 20) n
        · exact hpres (postId j) (ih3 j hjold)
        · exact hcovB j (by omega) (by omega)

/-- C1 counterexample: over the simulated feed of N = 61 pages the claim
prescribes ⌈61/40⌉ = 2 runs, but run 2 finalizes with the page-60 cursor —
not NULL — (each run after the first advances history by only 20 pages, not
40), so the claim as stated is false at N = 61. -/
theorem c1_counterexample :
    ¬ ((∀ j, j < 61 → postId j ∈ tableIds (linRuns 61 2).patreon_posts) ∧
      (getLastRun (linRuns 61 2).patreon_post_runs).map (fun lr => lr.last_next_link) =
        some none) := by
  rintro ⟨-, hcur⟩
  obtain ⟨-, ⟨lr, hlr, -, hlrc⟩, -⟩ := linRuns_inv 61 (by omega) 2 (by omega) (by omega)
  rw [if_pos (by omega)] at hlrc
  rw [hlr] at hcur
  simp at hcur
  rw [hcur] at hlrc
  exact Option.noConfusion hlrc

/-- C1 (amended): over a simulated feed of `n ≥ 1` pages (nothing added or
removed between runs), running the engine `max 1 (⌈n/20⌉ - 1)` times — one
run for `n ≤ 40`, and one further run for each additional 20 pages, since
Phase A always re-sweeps the first 20 pages and only Phase B advances
history — upserts every id of the feed at least once, and the final run's
stored resume cursor (`last_next_link`) is NULL. -/
theorem c1_amended_coverage (n : Nat) (hn : 1 ≤ n) :
    (∀ j, j < n →
      postId j ∈ tableIds (linRuns n (max 1 ((n + 19) / 20 - 1))).patreon_posts) ∧
    (∃ lr, getLastRun (linRuns n (max 1 ((n + 19) / 20 - 1))).patreon_post_runs =
        some lr ∧ lr.last_next_link = none) := by
  obtain ⟨-, ⟨lr, hlr, -, hlrc⟩, hcov⟩ :=
    linRuns_inv n hn (max 1 ((n + 19) / 20 - 1)) (by omega) (by omega)
  have hK : 20 * (max 1 ((n + 19) / 20 - 1)) + 20 ≥ n := by omega
  rw [if_neg (by omega)] at hlrc
  exact ⟨fun j hj => hcov j (by omega), ⟨lr, hlr, hlrc⟩⟩

/-- Witness for C1 (amended) at `n = 61` (where `max 1 (⌈61/20⌉ - 1) = 3`
runs are needed). -/
theorem c1_amended_coverage_witness :
    (1 ≤ 61) ∧
    ((∀ j, j < 61 →
      postId j ∈ tableIds (linRuns 61 (max 1 ((61 + 19) / 20 - 1))).patreon_posts) ∧
    (∃ lr, getLastRun (linRuns 61 (max 1 ((61 + 19) / 20 - 1))).patreon_post_runs =
        some lr ∧ lr.last_next_link = none)) :=
  ⟨by omega, c1_amended_coverage 61 (by omega)⟩
